import Mathlib

/-!
Verification of the StickStack Task Execution Orchestrator
(backend/src/services/claude.ts and the codebase-analysis service).

The TypeScript sources are shallowly embedded: pure functions become Lean
functions, the callback-driven process handling becomes explicit folds over
event lists, and the iteration loop becomes a structurally recursive function
whose fuel equals the remaining iteration budget (`maxIterations - cur`), so
that `fuel = 0` is exactly the loop guard `currentIteration < maxIterations`
failing.  Strings are modelled with Lean `String`/`List Char`; the agent
output only ever flows through ASCII-level operations (lower-casing,
whitespace trimming, substring search), which Lean's `Char.toLower` /
`Char.isWhitespace` reproduce on the ASCII range used by the tags and tokens.
-/

namespace StickStack

/-- Leading- and trailing-whitespace trim, the semantics of JavaScript
`String.prototype.trim` on the ASCII whitespace range. -/
def trimList (s : List Char) : List Char :=
  ((s.dropWhile Char.isWhitespace).reverse.dropWhile Char.isWhitespace).reverse

/-- Lower-cased character data of a string, the semantics of JavaScript
`toLowerCase` (and of the regex `i` flag) on the ASCII range. -/
def lcStr (s : String) : List Char :=
  s.data.map Char.toLower

/-- The opening marker of the completion tag, `<promise>`. -/
def openTag : List Char := "<promise>".data

/-- The closing marker of the completion tag, `</promise>`. -/
def closeTag : List Char := "</promise>".data

/-- First index of `s` at which `pat` occurs as a prefix of the remaining
suffix; `none` when `pat` occurs nowhere.  This is the substring search
underlying both `String.prototype.match` (leftmost match) and
`String.prototype.includes` in the sources. -/
def findSub (pat : List Char) : List Char → Option Nat
  | [] => if pat.isPrefixOf ([] : List Char) then some 0 else none
  | c :: rest =>
      if pat.isPrefixOf (c :: rest) then some 0
      else (findSub pat rest).map (· + 1)

/-- JavaScript `haystack.includes(needle)`. -/
def containsSub (pat s : String) : Bool :=
  (findSub pat.data s.data).isSome

/-- `checkCompletionPromise` (claude.ts, lines 13-17):

```
const match = output.match(/<promise>(.+?)<\/promise>/is);
if (!match) return false;
return match[1].trim().toLowerCase() === expected.trim().toLowerCase();
```

The regex is case-insensitive (`i`) and dot-all (`s`), and `.+?` is lazy, so
the match (when one exists) starts at the first case-insensitive occurrence
of `<promise>` and its interior runs to the first case-insensitive
`</promise>` that leaves at least one interior character.  (If the first
`<promise>` has no such closing marker after it, no later `<promise>` can
have one either, so the whole regex fails — hence searching only from the
first opening marker is faithful to the backtracking engine.)  Lower-casing
the whole haystack first implements the `i` flag; trimming after
lower-casing agrees with the source's trim-then-lower-case because
lower-casing fixes whitespace. `9` is the length of `<promise>`. -/
def checkCompletionPromise (output expected : String) : Bool :=
  match findSub openTag (lcStr output) with
  | none => false
  | some p =>
      match findSub closeTag (((lcStr output).drop (p + 9)).drop 1) with
      | none => false
      | some j =>
          decide (trimList (((lcStr output).drop (p + 9)).take (j + 1)) =
                  trimList (expected.data.map Char.toLower))

/-- The opening marker occurs (case-insensitively) at index `p` of `output`. -/
def openAt (output : String) (p : Nat) : Bool :=
  openTag.isPrefixOf ((lcStr output).drop p)

/-- The closing marker occurs (case-insensitively) at index `q` of `output`. -/
def closeAt (output : String) (q : Nat) : Bool :=
  closeTag.isPrefixOf ((lcStr output).drop q)

/-- The (lower-cased) interior text of a tag span opening at `p` and closing
at `q`. -/
def interior (output : String) (p q : Nat) : List Char :=
  ((lcStr output).drop (p + 9)).take (q - (p + 9))

/-- The promise-detector contract in the spec's words: `output` contains a
case-insensitive `<promise>…</promise>` span, and the interior text of the
first such span (first opening marker, then the nearest closing marker
leaving a non-empty interior), trimmed and lower-cased, equals the trimmed
and lower-cased expected token. -/
def promiseSpec (output expected : String) : Prop :=
  ∃ p q,
    openAt output p = true ∧
    (∀ i, i < p → openAt output i = false) ∧
    p + 9 < q ∧
    closeAt output q = true ∧
    (∀ j, p + 9 < j → closeAt output j = true → q ≤ j) ∧
    trimList (interior output p q) = trimList (expected.data.map Char.toLower)

example : checkCompletionPromise "<PROMISE> done </PROMISE>" "Done" = true := by decide
example : checkCompletionPromise "no tag here" "done" = false := by decide
example : checkCompletionPromise "<promise>a</promise> <promise>b</promise>" "b" = false := by
  decide

theorem drop_add (a b c : Nat) (l : List Char) (h : a + b = c) :
    (l.drop a).drop b = l.drop c := by
  rw [List.drop_drop]
  congr 1

theorem findSub_none_iff (pat : List Char) (hpat : pat ≠ []) :
    ∀ s : List Char, findSub pat s = none ↔ ∀ j, pat.isPrefixOf (s.drop j) = false := by
  intro s
  induction s with
  | nil =>
    obtain ⟨c, cs, rfl⟩ := List.exists_cons_of_ne_nil hpat
    constructor
    · intro _ j
      simp [List.isPrefixOf]
    · intro _
      simp [findSub, List.isPrefixOf]
  | cons c rest ih =>
    by_cases hp : pat.isPrefixOf (c :: rest) = true
    · constructor
      · intro h
        simp [findSub, hp] at h
      · intro h
        have h0 := h 0
        rw [List.drop_zero, hp] at h0
        exact absurd h0 (by simp)
    · have hp' : pat.isPrefixOf (c :: rest) = false := by
        cases hpp : pat.isPrefixOf (c :: rest) <;> simp_all
      constructor
      · intro h j
        simp only [findSub, hp', if_false, Bool.false_eq_true, Option.map_eq_none] at h
        cases j with
        | zero => simpa using hp'
        | succ j' =>
          have h0 : findSub pat rest = none := by
            cases hfr : findSub pat rest <;> simp [hfr] at h ⊢
          simpa using (ih.mp h0) j'
      · intro h
        have h0 : findSub pat rest = none := ih.mpr (fun j => by simpa using h (j + 1))
        simp [findSub, hp', h0]

theorem findSub_some_iff (pat : List Char) (hpat : pat ≠ []) :
    ∀ (s : List Char) (i : Nat),
      findSub pat s = some i ↔
        (pat.isPrefixOf (s.drop i) = true ∧
          ∀ j, j < i → pat.isPrefixOf (s.drop j) = false) := by
  intro s
  induction s with
  | nil =>
    intro i
    obtain ⟨c, cs, rfl⟩ := List.exists_cons_of_ne_nil hpat
    simp [findSub, List.isPrefixOf]
  | cons c rest ih =>
    intro i
    by_cases hp : pat.isPrefixOf (c :: rest) = true
    · constructor
      · intro h
        have h0 : i = 0 := by
          simp [findSub, hp] at h
          omega
        subst h0
        exact ⟨by simpa using hp, fun j hj => absurd hj (Nat.not_lt_zero j)⟩
      · rintro ⟨h1, h2⟩
        cases i with
        | zero => simp [findSub, hp]
        | succ i' =>
          have h0 := h2 0 (Nat.succ_pos i')
          rw [List.drop_zero, hp] at h0
          exact absurd h0 (by simp)
    · have hp' : pat.isPrefixOf (c :: rest) = false := by
        cases hpp : pat.isPrefixOf (c :: rest) <;> simp_all
      cases i with
      | zero =>
        constructor
        · intro h
          simp [findSub, hp'] at h
        · rintro ⟨h1, _⟩
          rw [List.drop_zero] at h1
          simp [hp'] at h1
      | succ i' =>
        constructor
        · intro h
          simp only [findSub, hp', if_false, Bool.false_eq_true] at h
          have hr : findSub pat rest = some i' := by
            cases hfr : findSub pat rest with
            | none => simp [hfr] at h
            | some k =>
              simp [hfr] at h
              simp [h]
          have hir := (ih i').mp hr
          refine ⟨by simpa using hir.1, ?_⟩
          intro j hj
          cases j with
          | zero => simpa using hp'
          | succ j' => simpa using hir.2 j' (by omega)
        · rintro ⟨h1, h2⟩
          have hr : findSub pat rest = some i' :=
            (ih i').mpr ⟨by simpa using h1, fun j hj => by simpa using h2 (j + 1) (by omega)⟩
          simp [findSub, hp', hr]

/-- C1: `checkCompletionPromise` returns true iff the output contains a
case-insensitive `<promise>…</promise>` span and the interior text of the
first such occurrence (which may span multiple lines), after trimming
leading/trailing whitespace and lower-casing both it and the expected token,
equals the expected token; it returns false when no tag is present, only the
first match is considered, and the three examples of the spec evaluate as
stated.  As a Lean function it is deterministic and side-effect free. -/
theorem checkCompletionPromise_correct :
    (∀ output expected,
        checkCompletionPromise output expected = true ↔ promiseSpec output expected) ∧
    checkCompletionPromise "<PROMISE> done </PROMISE>" "Done" = true ∧
    checkCompletionPromise "no tag here" "done" = false ∧
    checkCompletionPromise "<promise>a</promise> <promise>b</promise>" "b" = false := by
  refine ⟨?_, by decide, by decide, by decide⟩
  intro output expected
  constructor
  · intro hck
    unfold checkCompletionPromise at hck
    split at hck
    · simp at hck
    · rename_i p h1
      split at hck
      · simp at hck
      · rename_i j h2
        have heq := of_decide_eq_true hck
        have hopen := (findSub_some_iff openTag (by decide) (lcStr output) p).mp h1
        have hclose := (findSub_some_iff closeTag (by decide) _ j).mp h2
        refine ⟨p, p + 10 + j, hopen.1, fun i hi => hopen.2 i hi, by omega, ?_, ?_, ?_⟩
        · show closeTag.isPrefixOf ((lcStr output).drop (p + 10 + j)) = true
          have hdr : (((lcStr output).drop (p + 9)).drop 1).drop j =
              (lcStr output).drop (p + 10 + j) := by
            rw [drop_add (p + 9) 1 (p + 10) _ rfl, drop_add (p + 10) j (p + 10 + j) _ rfl]
          rw [← hdr]
          exact hclose.1
        · intro q' hq1 hq2
          by_contra hlt
          push_neg at hlt
          have hidx : q' - (p + 10) < j := by omega
          have hfalse := hclose.2 (q' - (p + 10)) hidx
          have hdr : (((lcStr output).drop (p + 9)).drop 1).drop (q' - (p + 10)) =
              (lcStr output).drop q' := by
            rw [drop_add (p + 9) 1 (p + 10) _ rfl, drop_add (p + 10) (q' - (p + 10)) q' _ (by omega)]
          rw [hdr] at hfalse
          have hq2' : closeTag.isPrefixOf ((lcStr output).drop q') = true := hq2
          rw [hq2'] at hfalse
          exact absurd hfalse (by simp)
        · show trimList (interior output p (p + 10 + j)) =
              trimList (expected.data.map Char.toLower)
          unfold interior
          have harith : p + 10 + j - (p + 9) = j + 1 := by omega
          rw [harith]
          exact heq
  · intro hspec
    unfold promiseSpec at hspec
    obtain ⟨p, q, hop, hfirst, hpq, hcl, hmin, htok⟩ := hspec
    unfold checkCompletionPromise
    have h1 : findSub openTag (lcStr output) = some p :=
      (findSub_some_iff openTag (by decide) _ p).mpr ⟨hop, fun j hj => hfirst j hj⟩
    simp only [h1]
    have h2 : findSub closeTag (((lcStr output).drop (p + 9)).drop 1) = some (q - (p + 10)) := by
      apply (findSub_some_iff closeTag (by decide) _ _).mpr
      constructor
      · have hdr : (((lcStr output).drop (p + 9)).drop 1).drop (q - (p + 10)) =
            (lcStr output).drop q := by
          rw [drop_add (p + 9) 1 (p + 10) _ rfl, drop_add (p + 10) (q - (p + 10)) q _ (by omega)]
        rw [hdr]
        exact hcl
      · intro j hj
        have hdr : (((lcStr output).drop (p + 9)).drop 1).drop j =
            (lcStr output).drop (p + 10 + j) := by
          rw [drop_add (p + 9) 1 (p + 10) _ rfl, drop_add (p + 10) j (p + 10 + j) _ rfl]
        rw [hdr]
        cases hx : closeTag.isPrefixOf ((lcStr output).drop (p + 10 + j)) with
        | false => rfl
        | true =>
          have hle : q ≤ p + 10 + j := hmin (p + 10 + j) (by omega) hx
          omega
    simp only [h2]
    apply decide_eq_true
    have harith : q - (p + 10) + 1 = q - (p + 9) := by omega
    rw [harith]
    exact htok

/-- Witness for C1: the spec's first example, discharged through the general
characterisation. -/
theorem checkCompletionPromise_correct_witness :
    checkCompletionPromise "<PROMISE> done </PROMISE>" "Done" = true :=
  checkCompletionPromise_correct.2.1

/-! ## Data model (types/index.ts) -/

/-- Task workflow status, `'backlog' | 'todo' | 'in_progress' | 'done'`. -/
inductive TaskStatus
  | backlog
  | todo
  | in_progress
  | done
deriving DecidableEq, Repr

/-- Ralph run status, `'iterating' | 'completed' | 'max_reached' | 'cancelled'`
(note: the type has no distinct value for the error outcome). -/
inductive RalphStatus
  | iterating
  | completed
  | max_reached
  | cancelled
deriving DecidableEq, Repr

/-- The Task record fields the orchestrator reads and writes. -/
structure Task where
  id : String
  title : String
  description : Option String
  status : TaskStatus
  claude_output : Option String
  ralph_enabled : Nat
  ralph_max_iterations : Nat
  ralph_completion_promise : String
  ralph_current_iteration : Nat
  ralph_status : Option RalphStatus
deriving DecidableEq, Repr

/-- JavaScript `s || d` on strings: the empty string is falsy. -/
def strOr (s d : String) : String := if s = "" then d else s

/-- JavaScript `o || d` on nullable strings. -/
def optStrOr (o : Option String) (d : String) : String :=
  match o with
  | none => d
  | some s => strOr s d

/-- JavaScript `n || d` on non-negative integers: zero is falsy. -/
def natOr (n d : Nat) : Nat := if n = 0 then d else n

/-- `buildIterationPrompt` (claude.ts, lines 22-36), the template literal
written as explicit concatenation.  Note that it embeds the completion
promise of the task value it is handed (each loop pass hands it the freshly
re-read task). -/
def buildIterationPrompt (task : Task) (iteration maxIterations : Nat) : String :=
  "You are working on a kanban task. Here are the details:\n\n**Task Title:** " ++
    task.title ++
  "\n\n**Task Description:** " ++
    optStrOr task.description "No description provided." ++
  "\n\n**Iteration:** " ++ toString iteration ++ "/" ++ toString maxIterations ++
  "\n\nPlease work on this task. When the task is TRULY complete and you have verified everything works correctly, output the following tag:\n\n<promise>" ++
    task.ralph_completion_promise ++
  "</promise>\n\nOnly include this promise tag when the task is genuinely finished. If you need more iterations to complete the work, just continue working without the promise tag."

/-! ## Process Runner events

The callback-driven child-process handling is embedded as a fold over the
ordered list of events the process object fires: stdout chunks, stderr
chunks, then one terminal event — `closed` (the `'close'` event with its
nullable exit code) or `errored` (the `'error'` event, e.g. spawn failure
when the executable is missing or not permitted). -/

inductive ProcEvent
  | stdoutData (text : String)
  | stderrData (text : String)
  | closed (code : Option Int)
  | errored (message : String)
deriving DecidableEq, Repr

/-- The stderr filter used by all runners:
`text.includes('Error') || text.includes('error')`. -/
def stderrKept (text : String) : Bool :=
  containsSub "Error" text || containsSub "error" text

/-- `runSingleIteration` (claude.ts, lines 157-203) as a fold over the
process events, starting from the already-accumulated output `acc` (the
source starts from `''`).  It returns `none` only when the event list has no
terminal event (the promise would never settle); every terminal event makes
it resolve — it never rejects.  The `'error'` handler appends
`"\n[error] " ++ message` to the captured output and resolves with exit code
`1`. -/
def runSingleIteration (events : List ProcEvent) (acc : String) :
    Option (String × Option Int) :=
  match events with
  | [] => none
  | .stdoutData t :: rest => runSingleIteration rest (acc ++ t)
  | .stderrData t :: rest =>
      runSingleIteration rest (if stderrKept t then acc ++ "\n[stderr] " ++ t else acc)
  | .closed code :: _ => some (acc, code)
  | .errored msg :: _ => some (acc ++ "\n[error] " ++ msg, some 1)

/-- Counterexample to C6 as stated: on a pure spawn failure (no output
streamed), `runSingleIteration` resolves with the non-empty string
`"\n[error] spawn claude ENOENT"`, not with a zero-length output. -/
theorem runSingleIteration_spawn_output_nonempty :
    runSingleIteration [ProcEvent.errored "spawn claude ENOENT"] "" =
      some ("\n[error] spawn claude ENOENT", some 1) ∧
    ("\n[error] spawn claude ENOENT" : String) ≠ "" := by
  constructor
  · rfl
  · decide

/-- C6 (amended): when the process errors (executable not found, permission
denied), `runSingleIteration` resolves rather than raising, with the
sentinel non-zero exit code `1` and the output captured so far annotated
with `"\n[error] " ++ message` — in particular, on a spawn failure with no
prior output the result is exactly that annotation, not the empty string. -/
theorem runSingleIteration_spawn_failure :
    ∀ (msg acc : String) (rest : List ProcEvent),
      runSingleIteration (ProcEvent.errored msg :: rest) acc =
        some (acc ++ "\n[error] " ++ msg, some 1) ∧
      (some 1 : Option Int) ≠ some 0 := by
  intro msg acc rest
  exact ⟨rfl, by decide⟩

/-- Witness for C6 (amended): a bare spawn failure resolves with the error
annotation and exit code 1. -/
theorem runSingleIteration_spawn_failure_witness :
    runSingleIteration [ProcEvent.errored "spawn claude EACCES"] "" =
      some ("" ++ "\n[error] " ++ "spawn claude EACCES", some 1) :=
  (runSingleIteration_spawn_failure "spawn claude EACCES" "" []).1

/-! ## Single-shot mode (`startClaudeTask`, claude.ts lines 38-138)

The entry point is embedded as a function from the process-event list to the
pair (ordered task-field writes, ordered lifecycle events).  A write with
both fields `none` models the read-back `updateTask(task.id, \x7b\x7d)` call.
The embedding is a total function: no exception escapes it — the `close`
handler's rejection on a non-zero exit is caught by the `catch` block, which
is inlined into the corresponding branch here. -/

/-- One `updateTask` call: the fields it sets. -/
structure TaskWrite where
  status : Option TaskStatus
  claude_output : Option String
deriving DecidableEq, Repr

/-- Lifecycle events emitted by the single-shot runner:
`claude:progress`, `claude:complete` and `task:updated`. -/
inductive RunEvent
  | progress (message : String)
  | complete (result : String)
  | taskUpdated
deriving DecidableEq, Repr

/-- Rendering of the nullable exit code inside template strings. -/
def codeStr : Option Int → String
  | some n => toString n
  | none => "null"

/-- The body of `startClaudeTask` after the spawn: stream handlers accumulate
output and emit progress; the terminal event decides the writes.  Exit code
zero: write status `done` with the full output, emit `claude:complete`, then
the read-back write and `task:updated`.  Non-zero exit: write the partial
output annotated with the exit code, then (from the catch block after the
rejection) write the output with the `--- Error ---` section and emit an
error progress event — the status field is never written.  Process error:
only the catch-block write and the error progress event. -/
def startClaudeTaskGo (events : List ProcEvent) (acc : String) :
    List TaskWrite × List RunEvent :=
  match events with
  | [] => ([], [])
  | .stdoutData t :: rest =>
      ((startClaudeTaskGo rest (acc ++ t)).1,
       .progress t :: (startClaudeTaskGo rest (acc ++ t)).2)
  | .stderrData t :: rest =>
      if stderrKept t then
        ((startClaudeTaskGo rest (acc ++ "\n[stderr] " ++ t)).1,
         .progress ("[stderr] " ++ t) ::
           (startClaudeTaskGo rest (acc ++ "\n[stderr] " ++ t)).2)
      else
        startClaudeTaskGo rest acc
  | .closed code :: _ =>
      if code = some 0 then
        ([⟨some .done, some acc⟩, ⟨none, none⟩],
         [.complete acc, .taskUpdated])
      else
        ([⟨none, some (acc ++ "\n\n[Process exited with code " ++ codeStr code ++ "]")⟩,
          ⟨none, some (acc ++ "\n--- Error ---\nClaude exited with code " ++ codeStr code)⟩],
         [.progress ("Error: Claude exited with code " ++ codeStr code)])
  | .errored msg :: _ =>
      ([⟨none, some (acc ++ "\n--- Error ---\n" ++ msg)⟩],
       [.progress ("Error: " ++ msg)])

/-- `startClaudeTask`: emits the initial progress event and runs the body
from an empty accumulator. -/
def startClaudeTask (events : List ProcEvent) : List TaskWrite × List RunEvent :=
  ((startClaudeTaskGo events "").1,
   RunEvent.progress "Starting Claude..." :: (startClaudeTaskGo events "").2)

/-- Stream (non-terminal) events. -/
def isStreamEvent : ProcEvent → Bool
  | .stdoutData _ => true
  | .stderrData _ => true
  | _ => false

/-- Output accumulated by the stream handlers over a run of events. -/
def streamFold (acc : String) : List ProcEvent → String
  | [] => acc
  | .stdoutData t :: rest => streamFold (acc ++ t) rest
  | .stderrData t :: rest =>
      streamFold (if stderrKept t then acc ++ "\n[stderr] " ++ t else acc) rest
  | _ :: rest => streamFold acc rest

/-- Progress events emitted by the stream handlers. -/
def streamEvents : List ProcEvent → List RunEvent
  | [] => []
  | .stdoutData t :: rest => .progress t :: streamEvents rest
  | .stderrData t :: rest =>
      if stderrKept t then .progress ("[stderr] " ++ t) :: streamEvents rest
      else streamEvents rest
  | _ :: rest => streamEvents rest

/-- Number of `claude:complete` events in a trace. -/
def completeCount (events : List RunEvent) : Nat :=
  (events.filter fun e => match e with | .complete _ => true | _ => false).length

theorem completeCount_append (a b : List RunEvent) :
    completeCount (a ++ b) = completeCount a + completeCount b := by
  simp [completeCount, List.filter_append]

theorem completeCount_progress_cons (m : String) (l : List RunEvent) :
    completeCount (RunEvent.progress m :: l) = completeCount l := by
  simp [completeCount, List.filter]

theorem completeCount_streamEvents (pre : List ProcEvent) :
    completeCount (streamEvents pre) = 0 := by
  induction pre with
  | nil => rfl
  | cons e rest ih =>
    match e with
    | .stdoutData t => simpa [streamEvents, completeCount, List.filter] using ih
    | .stderrData t =>
      by_cases hk : stderrKept t = true
      · simpa [streamEvents, hk, completeCount, List.filter] using ih
      · simpa [streamEvents, hk, completeCount, List.filter] using ih
    | .closed c => simpa [streamEvents] using ih
    | .errored m => simpa [streamEvents] using ih

theorem startClaudeTaskGo_stream :
    ∀ (pre : List ProcEvent), (∀ e ∈ pre, isStreamEvent e = true) →
      ∀ (acc : String) (rest : List ProcEvent),
        startClaudeTaskGo (pre ++ rest) acc =
          ((startClaudeTaskGo rest (streamFold acc pre)).1,
           streamEvents pre ++ (startClaudeTaskGo rest (streamFold acc pre)).2) := by
  intro pre
  induction pre with
  | nil => intro _ acc rest; simp [streamFold, streamEvents]
  | cons e pre ih =>
    intro hall acc rest
    have hall' : ∀ x ∈ pre, isStreamEvent x = true :=
      fun x hx => hall x (List.mem_cons_of_mem _ hx)
    match e with
    | .stdoutData t =>
      simp only [List.cons_append, startClaudeTaskGo, streamFold, streamEvents,
        List.append_eq]
      rw [ih hall' (acc ++ t) rest]
    | .stderrData t =>
      by_cases hk : stderrKept t = true
      · simp only [List.cons_append, startClaudeTaskGo, streamFold, streamEvents, hk,
          if_true, List.append_eq]
        rw [ih hall' (acc ++ "\n[stderr] " ++ t) rest]
      · simp only [List.cons_append, startClaudeTaskGo, streamFold, streamEvents, hk,
          if_false, Bool.false_eq_true, List.append_eq]
        exact ih hall' acc rest
    | .closed c =>
      have := hall _ (List.mem_cons_self _ _)
      simp [isStreamEvent] at this
    | .errored m =>
      have := hall _ (List.mem_cons_self _ _)
      simp [isStreamEvent] at this

/-- C7: single-shot mode.  When the agent process exits with code zero, the
task is persisted with status `done` and the full captured output, the
read-back write follows, and exactly one `claude:complete` event is emitted.
When it exits non-zero, no write touches the status field (the task stays in
its prior, still-active workflow state), the persisted output is annotated
with the exit code, the condition is surfaced as an error progress event,
and no completion event is emitted; the embedding is a total function, so no
exception escapes the entry point. -/
theorem startClaudeTask_single_shot :
    ∀ (pre rest : List ProcEvent) (c : Option Int),
      (∀ e ∈ pre, isStreamEvent e = true) →
      (startClaudeTask (pre ++ ProcEvent.closed (some 0) :: rest) =
          ([⟨some TaskStatus.done, some (streamFold "" pre)⟩, ⟨none, none⟩],
           RunEvent.progress "Starting Claude..." ::
             (streamEvents pre ++
               [RunEvent.complete (streamFold "" pre), RunEvent.taskUpdated])) ∧
        completeCount (startClaudeTask (pre ++ ProcEvent.closed (some 0) :: rest)).2 = 1) ∧
      (c ≠ some 0 →
        (∀ w ∈ (startClaudeTask (pre ++ ProcEvent.closed c :: rest)).1,
            w.status = none) ∧
        TaskWrite.mk none
            (some (streamFold "" pre ++ "\n--- Error ---\nClaude exited with code " ++
              codeStr c))
          ∈ (startClaudeTask (pre ++ ProcEvent.closed c :: rest)).1 ∧
        completeCount (startClaudeTask (pre ++ ProcEvent.closed c :: rest)).2 = 0) := by
  intro pre rest c hall
  have hbody := startClaudeTaskGo_stream pre hall "" (ProcEvent.closed (some 0) :: rest)
  have hzero : startClaudeTaskGo (ProcEvent.closed (some 0) :: rest) (streamFold "" pre) =
      ([⟨some TaskStatus.done, some (streamFold "" pre)⟩, ⟨none, none⟩],
       [RunEvent.complete (streamFold "" pre), RunEvent.taskUpdated]) := by
    simp [startClaudeTaskGo]
  constructor
  · constructor
    · unfold startClaudeTask
      rw [hbody, hzero]
    · unfold startClaudeTask
      rw [hbody, hzero]
      simp only [completeCount_progress_cons, completeCount_append,
        completeCount_streamEvents]
      rfl
  · intro hc
    have hnz : startClaudeTaskGo (ProcEvent.closed c :: rest) (streamFold "" pre) =
        ([⟨none, some (streamFold "" pre ++ "\n\n[Process exited with code " ++
            codeStr c ++ "]")⟩,
          ⟨none, some (streamFold "" pre ++ "\n--- Error ---\nClaude exited with code " ++
            codeStr c)⟩],
         [RunEvent.progress ("Error: Claude exited with code " ++ codeStr c)]) := by
      simp [startClaudeTaskGo, hc]
    have hbody' := startClaudeTaskGo_stream pre hall "" (ProcEvent.closed c :: rest)
    refine ⟨?_, ?_, ?_⟩
    · intro w hw
      unfold startClaudeTask at hw
      rw [hbody', hnz] at hw
      simp only [List.mem_cons, List.mem_singleton] at hw
      rcases hw with h | h | h
      · rw [h]
      · rw [h]
      · simp at h
    · unfold startClaudeTask
      rw [hbody', hnz]
      simp
    · unfold startClaudeTask
      rw [hbody', hnz]
      simp only [completeCount_progress_cons, completeCount_append,
        completeCount_streamEvents]
      rfl

/-- Witness for C7: the spec's single-shot success scenario — output
`"Done."`, exit code 0 — yields exactly one completion event. -/
theorem startClaudeTask_single_shot_witness :
    completeCount
        (startClaudeTask [ProcEvent.stdoutData "Done.", ProcEvent.closed (some 0)]).2 = 1 :=
  (startClaudeTask_single_shot [ProcEvent.stdoutData "Done."] [] (some 1)
    (by decide)).1.2

/-! ## The Ralph loop (`runRalphLoop`, claude.ts lines 208-346)

The loop is embedded structurally: the source iterates
`while (currentIteration < maxIterations)`, incrementing
`currentIteration` once per pass, so the remaining budget
`maxIterations - currentIteration` strictly decreases; it is made the
explicit `fuel` argument (the top-level call passes `fuel = maxIterations`,
`cur = 0`, and every recursive call keeps `cur + fuel` constant), so
`fuel = 0` is exactly the loop guard failing, which leaves the initial
`finalReason = 'max_reached'` in place.

The parts of a pass that interact with the outside world are supplied by an
environment oracle: `cancelledAt i` is the value of the loop's cancellation
flag observed at the poll at the top of pass `i`; `dbTask i` is the fresh
task snapshot `getTaskById` returns during pass `i`; `iterResult i` is the
(captured output, exit code) pair `runSingleIteration` resolves with for
pass `i`.  The trace records each process spawn (with the prompt built from
the fresh snapshot), each promise-detector evaluation (with the token it
compared against), and each non-zero-exit diagnostic event. -/

/-- Terminal reason of a Ralph loop run. -/
inductive FinalReason
  | promise_fulfilled
  | max_reached
  | cancelled
  | error
deriving DecidableEq, Repr

/-- Observable per-pass actions of the loop. -/
inductive IterAction
  | spawn (iteration : Nat) (prompt : String)
  | check (iteration : Nat) (tokenUsed : String) (found : Bool)
  | diag (iteration : Nat) (code : Option Int)
deriving DecidableEq, Repr

/-- Environment oracle for one loop run (see section comment). -/
structure LoopEnv where
  cancelledAt : Nat → Bool
  dbTask : Nat → Option Task
  iterResult : Nat → String × Option Int

/-- State at loop exit: terminal reason, final value of `currentIteration`,
accumulated transcript (`allOutput`), and the action trace. -/
structure LoopState where
  reason : FinalReason
  iteration : Nat
  transcript : String
  trace : List IterAction
deriving DecidableEq, Repr

/-- The loop body (claude.ts lines 231-292), one constructor case per exit
or continuation path, in source order: cancellation poll; increment;
fresh-snapshot read (`error` exit when the task has vanished); prompt build
from the fresh snapshot; iteration run; transcript append with the
per-iteration separator; promise check against the token fixed at entry;
`promise_fulfilled` exit; non-zero-exit diagnostic and continue; continue. -/
def ralphLoopGo (env : LoopEnv) (token : String) (maxIterations : Nat) :
    Nat → Nat → String → List IterAction → LoopState
  | 0, cur, acc, trace => ⟨.max_reached, cur, acc, trace⟩
  | fuel + 1, cur, acc, trace =>
      if env.cancelledAt (cur + 1) then
        ⟨.cancelled, cur, acc, trace⟩
      else
        match env.dbTask (cur + 1) with
        | none => ⟨.error, cur + 1, acc, trace⟩
        | some t =>
            if checkCompletionPromise (env.iterResult (cur + 1)).1 token then
              ⟨.promise_fulfilled, cur + 1,
               acc ++ "\n--- Iteration " ++ toString (cur + 1) ++ " ---\n" ++
                 (env.iterResult (cur + 1)).1,
               trace ++ [.spawn (cur + 1) (buildIterationPrompt t (cur + 1) maxIterations),
                 .check (cur + 1) token true]⟩
            else if (env.iterResult (cur + 1)).2 ≠ some 0 then
              ralphLoopGo env token maxIterations fuel (cur + 1)
                (acc ++ "\n--- Iteration " ++ toString (cur + 1) ++ " ---\n" ++
                  (env.iterResult (cur + 1)).1)
                (trace ++ [.spawn (cur + 1) (buildIterationPrompt t (cur + 1) maxIterations),
                  .check (cur + 1) token false,
                  .diag (cur + 1) (env.iterResult (cur + 1)).2])
            else
              ralphLoopGo env token maxIterations fuel (cur + 1)
                (acc ++ "\n--- Iteration " ++ toString (cur + 1) ++ " ---\n" ++
                  (env.iterResult (cur + 1)).1)
                (trace ++ [.spawn (cur + 1) (buildIterationPrompt t (cur + 1) maxIterations),
                  .check (cur + 1) token false])

/-- `ralph_status` written back per terminal reason (claude.ts lines
306-321): note both `cancelled` and `error` persist `'cancelled'` — the
`RalphStatus` type has no error value. -/
def ralphStatusOf : FinalReason → RalphStatus
  | .promise_fulfilled => .completed
  | .max_reached => .max_reached
  | .cancelled => .cancelled
  | .error => .cancelled

/-- Workflow status written back: `done` only on `promise_fulfilled`; every
other terminal reason writes back the status from the entry snapshot. -/
def finalTaskStatus : FinalReason → TaskStatus → TaskStatus
  | .promise_fulfilled, _ => .done
  | _, s => s

/-- Fields of the final `updateTask` call (claude.ts lines 324-329). -/
structure FinalWrite where
  status : TaskStatus
  claude_output : String
  ralph_status : RalphStatus
  ralph_current_iteration : Nat
deriving DecidableEq, Repr

/-- Registry entry removal (`Map.delete`). -/
def delEntry (reg : List (String × Bool)) (k : String) : List (String × Bool) :=
  reg.filter (fun e => e.1 != k)

/-- Registry entry insertion/overwrite (`Map.set`). -/
def setEntry (reg : List (String × Bool)) (k : String) (v : Bool) :
    List (String × Bool) :=
  (k, v) :: delEntry reg k

/-- Registry lookup (`Map.get`). -/
def lookupEntry (reg : List (String × Bool)) (k : String) : Option Bool :=
  (reg.find? (fun e => e.1 == k)).map (·.2)

/-- Everything observable about one `runRalphLoop` call. -/
structure RalphRun where
  reason : FinalReason
  finalWrite : FinalWrite
  transcript : String
  loopCompleteEvent : Nat × FinalReason
  claudeCompleteEmitted : Bool
  registryAfter : List (String × Bool)
  trace : List IterAction

/-- The completion token fixed at loop entry:
`task.ralph_completion_promise || 'TASK_COMPLETE'` (claude.ts line 213). -/
def loopToken (task : Task) : String :=
  strOr task.ralph_completion_promise "TASK_COMPLETE"

/-- The iteration bound fixed at loop entry:
`task.ralph_max_iterations || 10` (claude.ts line 212). -/
def loopMax (task : Task) : Nat :=
  natOr task.ralph_max_iterations 10

/-- The loop-exit state of a full run started from the entry snapshot. -/
def loopExit (task : Task) (env : LoopEnv) : LoopState :=
  ralphLoopGo env (loopToken task) (loopMax task) (loopMax task) 0 "" []

/-- `runRalphLoop`: fixes the effective maximum and the completion token
once at entry, installs a fresh cancellation entry, runs the loop, then
unconditionally deletes the registry entry and performs the final
write-back and events (claude.ts lines 299-345). -/
def runRalphLoop (task : Task) (env : LoopEnv) (reg : List (String × Bool)) :
    RalphRun :=
  { reason := (loopExit task env).reason
    finalWrite :=
      { status := finalTaskStatus (loopExit task env).reason task.status
        claude_output := (loopExit task env).transcript
        ralph_status := ralphStatusOf (loopExit task env).reason
        ralph_current_iteration := (loopExit task env).iteration }
    transcript := (loopExit task env).transcript
    loopCompleteEvent := ((loopExit task env).iteration, (loopExit task env).reason)
    claudeCompleteEmitted :=
      decide ((loopExit task env).reason = FinalReason.promise_fulfilled)
    registryAfter := delEntry (setEntry reg task.id false) task.id
    trace := (loopExit task env).trace }

/-! ### Step lemmas for the loop body -/

theorem ralphLoopGo_fuel_zero (env : LoopEnv) (token : String)
    (maxIterations cur : Nat) (acc : String) (trace : List IterAction) :
    ralphLoopGo env token maxIterations 0 cur acc trace =
      ⟨FinalReason.max_reached, cur, acc, trace⟩ := rfl

theorem ralphLoopGo_cancel (env : LoopEnv) (token : String)
    (maxIterations fuel cur : Nat) (acc : String) (trace : List IterAction)
    (hc : env.cancelledAt (cur + 1) = true) :
    ralphLoopGo env token maxIterations (fuel + 1) cur acc trace =
      ⟨FinalReason.cancelled, cur, acc, trace⟩ := by
  simp [ralphLoopGo, hc]

theorem ralphLoopGo_dbfail (env : LoopEnv) (token : String)
    (maxIterations fuel cur : Nat) (acc : String) (trace : List IterAction)
    (hc : env.cancelledAt (cur + 1) = false)
    (hdb : env.dbTask (cur + 1) = none) :
    ralphLoopGo env token maxIterations (fuel + 1) cur acc trace =
      ⟨FinalReason.error, cur + 1, acc, trace⟩ := by
  simp [ralphLoopGo, hc, hdb]

theorem ralphLoopGo_promise (env : LoopEnv) (token : String)
    (maxIterations fuel cur : Nat) (acc : String) (trace : List IterAction)
    (t : Task) (hc : env.cancelledAt (cur + 1) = false)
    (hdb : env.dbTask (cur + 1) = some t)
    (hf : checkCompletionPromise (env.iterResult (cur + 1)).1 token = true) :
    ralphLoopGo env token maxIterations (fuel + 1) cur acc trace =
      ⟨FinalReason.promise_fulfilled, cur + 1,
       acc ++ "\n--- Iteration " ++ toString (cur + 1) ++ " ---\n" ++
         (env.iterResult (cur + 1)).1,
       trace ++ [.spawn (cur + 1) (buildIterationPrompt t (cur + 1) maxIterations),
         .check (cur + 1) token true]⟩ := by
  simp [ralphLoopGo, hc, hdb, hf]

theorem ralphLoopGo_step_diag (env : LoopEnv) (token : String)
    (maxIterations fuel cur : Nat) (acc : String) (trace : List IterAction)
    (t : Task) (hc : env.cancelledAt (cur + 1) = false)
    (hdb : env.dbTask (cur + 1) = some t)
    (hf : checkCompletionPromise (env.iterResult (cur + 1)).1 token = false)
    (hcode : (env.iterResult (cur + 1)).2 ≠ some 0) :
    ralphLoopGo env token maxIterations (fuel + 1) cur acc trace =
      ralphLoopGo env token maxIterations fuel (cur + 1)
        (acc ++ "\n--- Iteration " ++ toString (cur + 1) ++ " ---\n" ++
          (env.iterResult (cur + 1)).1)
        (trace ++ [.spawn (cur + 1) (buildIterationPrompt t (cur + 1) maxIterations),
          .check (cur + 1) token false,
          .diag (cur + 1) (env.iterResult (cur + 1)).2]) := by
  simp [ralphLoopGo, hc, hdb, hf, hcode]

theorem ralphLoopGo_step_ok (env : LoopEnv) (token : String)
    (maxIterations fuel cur : Nat) (acc : String) (trace : List IterAction)
    (t : Task) (hc : env.cancelledAt (cur + 1) = false)
    (hdb : env.dbTask (cur + 1) = some t)
    (hf : checkCompletionPromise (env.iterResult (cur + 1)).1 token = false)
    (hcode : (env.iterResult (cur + 1)).2 = some 0) :
    ralphLoopGo env token maxIterations (fuel + 1) cur acc trace =
      ralphLoopGo env token maxIterations fuel (cur + 1)
        (acc ++ "\n--- Iteration " ++ toString (cur + 1) ++ " ---\n" ++
          (env.iterResult (cur + 1)).1)
        (trace ++ [.spawn (cur + 1) (buildIterationPrompt t (cur + 1) maxIterations),
          .check (cur + 1) token false]) := by
  simp [ralphLoopGo, hc, hdb, hf, hcode]

/-! ### Loop invariants -/

theorem ralphLoopGo_iteration_bound (env : LoopEnv) (token : String)
    (maxIterations : Nat) :
    ∀ (fuel cur : Nat) (acc : String) (trace : List IterAction),
      (ralphLoopGo env token maxIterations fuel cur acc trace).iteration ≤ cur + fuel ∧
      ((ralphLoopGo env token maxIterations fuel cur acc trace).reason =
          FinalReason.max_reached →
        (ralphLoopGo env token maxIterations fuel cur acc trace).iteration =
          cur + fuel) := by
  intro fuel
  induction fuel with
  | zero =>
    intro cur acc trace
    rw [ralphLoopGo_fuel_zero]
    constructor
    · show cur ≤ cur + 0
      omega
    · intro _
      show cur = cur + 0
      omega
  | succ fuel ih =>
    intro cur acc trace
    by_cases hc : env.cancelledAt (cur + 1) = true
    · rw [ralphLoopGo_cancel env token maxIterations fuel cur acc trace hc]
      constructor
      · show cur ≤ cur + (fuel + 1)
        omega
      · intro h
        simp at h
    · have hc' : env.cancelledAt (cur + 1) = false := by
        cases hx : env.cancelledAt (cur + 1) <;> simp_all
      cases hdb : env.dbTask (cur + 1) with
      | none =>
        rw [ralphLoopGo_dbfail env token maxIterations fuel cur acc trace hc' hdb]
        constructor
        · show cur + 1 ≤ cur + (fuel + 1)
          omega
        · intro h
          simp at h
      | some t =>
        by_cases hf : checkCompletionPromise (env.iterResult (cur + 1)).1 token = true
        · rw [ralphLoopGo_promise env token maxIterations fuel cur acc trace t hc' hdb hf]
          constructor
          · show cur + 1 ≤ cur + (fuel + 1)
            omega
          · intro h
            simp at h
        · have hf' : checkCompletionPromise (env.iterResult (cur + 1)).1 token = false := by
            cases hx : checkCompletionPromise (env.iterResult (cur + 1)).1 token <;> simp_all
          by_cases hcode : (env.iterResult (cur + 1)).2 = some 0
          · rw [ralphLoopGo_step_ok env token maxIterations fuel cur acc trace t hc' hdb
              hf' hcode]
            have h := ih (cur + 1)
              (acc ++ "\n--- Iteration " ++ toString (cur + 1) ++ " ---\n" ++
                (env.iterResult (cur + 1)).1)
              (trace ++ [.spawn (cur + 1) (buildIterationPrompt t (cur + 1) maxIterations),
                .check (cur + 1) token false])
            constructor
            · have := h.1
              omega
            · intro hr
              have := h.2 hr
              omega
          · rw [ralphLoopGo_step_diag env token maxIterations fuel cur acc trace t hc' hdb
              hf' hcode]
            have h := ih (cur + 1)
              (acc ++ "\n--- Iteration " ++ toString (cur + 1) ++ " ---\n" ++
                (env.iterResult (cur + 1)).1)
              (trace ++ [.spawn (cur + 1) (buildIterationPrompt t (cur + 1) maxIterations),
                .check (cur + 1) token false,
                .diag (cur + 1) (env.iterResult (cur + 1)).2])
            constructor
            · have := h.1
              omega
            · intro hr
              have := h.2 hr
              omega

theorem ralphLoopGo_trace_extends (env : LoopEnv) (token : String)
    (maxIterations : Nat) :
    ∀ (fuel cur : Nat) (acc : String) (trace : List IterAction),
      ∃ ext, (ralphLoopGo env token maxIterations fuel cur acc trace).trace =
        trace ++ ext := by
  intro fuel
  induction fuel with
  | zero =>
    intro cur acc trace
    exact ⟨[], by rw [ralphLoopGo_fuel_zero]; simp⟩
  | succ fuel ih =>
    intro cur acc trace
    by_cases hc : env.cancelledAt (cur + 1) = true
    · exact ⟨[], by rw [ralphLoopGo_cancel env token maxIterations fuel cur acc trace hc]; simp⟩
    · have hc' : env.cancelledAt (cur + 1) = false := by
        cases hx : env.cancelledAt (cur + 1) <;> simp_all
      cases hdb : env.dbTask (cur + 1) with
      | none =>
        exact ⟨[], by
          rw [ralphLoopGo_dbfail env token maxIterations fuel cur acc trace hc' hdb]; simp⟩
      | some t =>
        by_cases hf : checkCompletionPromise (env.iterResult (cur + 1)).1 token = true
        · refine ⟨[.spawn (cur + 1) (buildIterationPrompt t (cur + 1) maxIterations),
            .check (cur + 1) token true], ?_⟩
          rw [ralphLoopGo_promise env token maxIterations fuel cur acc trace t hc' hdb hf]
        · have hf' : checkCompletionPromise (env.iterResult (cur + 1)).1 token = false := by
            cases hx : checkCompletionPromise (env.iterResult (cur + 1)).1 token <;> simp_all
          by_cases hcode : (env.iterResult (cur + 1)).2 = some 0
          · obtain ⟨ext, hext⟩ := ih (cur + 1)
              (acc ++ "\n--- Iteration " ++ toString (cur + 1) ++ " ---\n" ++
                (env.iterResult (cur + 1)).1)
              (trace ++ [.spawn (cur + 1) (buildIterationPrompt t (cur + 1) maxIterations),
                .check (cur + 1) token false])
            refine ⟨[.spawn (cur + 1) (buildIterationPrompt t (cur + 1) maxIterations),
              .check (cur + 1) token false] ++ ext, ?_⟩
            rw [ralphLoopGo_step_ok env token maxIterations fuel cur acc trace t hc' hdb
              hf' hcode, hext]
            simp
          · obtain ⟨ext, hext⟩ := ih (cur + 1)
              (acc ++ "\n--- Iteration " ++ toString (cur + 1) ++ " ---\n" ++
                (env.iterResult (cur + 1)).1)
              (trace ++ [.spawn (cur + 1) (buildIterationPrompt t (cur + 1) maxIterations),
                .check (cur + 1) token false,
                .diag (cur + 1) (env.iterResult (cur + 1)).2])
            refine ⟨[.spawn (cur + 1) (buildIterationPrompt t (cur + 1) maxIterations),
              .check (cur + 1) token false,
              .diag (cur + 1) (env.iterResult (cur + 1)).2] ++ ext, ?_⟩
            rw [ralphLoopGo_step_diag env token maxIterations fuel cur acc trace t hc' hdb
              hf' hcode, hext]
            simp

theorem ralphLoopGo_trace_mem (env : LoopEnv) (token : String)
    (maxIterations fuel cur : Nat) (acc : String) (trace : List IterAction)
    (a : IterAction) (ha : a ∈ trace) :
    a ∈ (ralphLoopGo env token maxIterations fuel cur acc trace).trace := by
  obtain ⟨ext, hext⟩ :=
    ralphLoopGo_trace_extends env token maxIterations fuel cur acc trace
  rw [hext]
  exact List.mem_append_left _ ha

/-- What every recorded action satisfies: spawned prompts are built from the
freshly fetched snapshot with the entry-fixed maximum; every promise check
compares against the entry-fixed token; diagnostics carry that pass's exit
code. -/
def actionSpec (env : LoopEnv) (token : String) (maxIterations : Nat) :
    IterAction → Prop
  | .spawn i prompt =>
      ∃ t, env.dbTask i = some t ∧ prompt = buildIterationPrompt t i maxIterations
  | .check i tokenUsed found =>
      tokenUsed = token ∧ found = checkCompletionPromise (env.iterResult i).1 token
  | .diag i code => code = (env.iterResult i).2

theorem ralphLoopGo_actionSpec (env : LoopEnv) (token : String)
    (maxIterations : Nat) :
    ∀ (fuel cur : Nat) (acc : String) (trace : List IterAction),
      (∀ a ∈ trace, actionSpec env token maxIterations a) →
      ∀ a ∈ (ralphLoopGo env token maxIterations fuel cur acc trace).trace,
        actionSpec env token maxIterations a := by
  intro fuel
  induction fuel with
  | zero =>
    intro cur acc trace h
    rw [ralphLoopGo_fuel_zero]
    exact h
  | succ fuel ih =>
    intro cur acc trace h
    by_cases hc : env.cancelledAt (cur + 1) = true
    · rw [ralphLoopGo_cancel env token maxIterations fuel cur acc trace hc]
      exact h
    · have hc' : env.cancelledAt (cur + 1) = false := by
        cases hx : env.cancelledAt (cur + 1) <;> simp_all
      cases hdb : env.dbTask (cur + 1) with
      | none =>
        rw [ralphLoopGo_dbfail env token maxIterations fuel cur acc trace hc' hdb]
        exact h
      | some t =>
        have hstep : ∀ found : Bool,
            found = checkCompletionPromise (env.iterResult (cur + 1)).1 token →
            ∀ a ∈ trace ++
              [IterAction.spawn (cur + 1) (buildIterationPrompt t (cur + 1) maxIterations),
               IterAction.check (cur + 1) token found],
              actionSpec env token maxIterations a := by
          intro found hfound a ha
          rcases List.mem_append.mp ha with h1 | h2
          · exact h a h1
          · rcases List.mem_cons.mp h2 with h3 | h4
            · rw [h3]
              exact ⟨t, hdb, rfl⟩
            · rcases List.mem_cons.mp h4 with h5 | h6
              · rw [h5]
                exact ⟨rfl, hfound⟩
              · cases h6
        by_cases hf : checkCompletionPromise (env.iterResult (cur + 1)).1 token = true
        · rw [ralphLoopGo_promise env token maxIterations fuel cur acc trace t hc' hdb hf]
          exact hstep true hf.symm
        · have hf' : checkCompletionPromise (env.iterResult (cur + 1)).1 token = false := by
            cases hx : checkCompletionPromise (env.iterResult (cur + 1)).1 token <;> simp_all
          by_cases hcode : (env.iterResult (cur + 1)).2 = some 0
          · rw [ralphLoopGo_step_ok env token maxIterations fuel cur acc trace t hc' hdb
              hf' hcode]
            exact ih (cur + 1) _ _ (hstep false hf'.symm)
          · rw [ralphLoopGo_step_diag env token maxIterations fuel cur acc trace t hc' hdb
              hf' hcode]
            apply ih (cur + 1)
            intro a ha
            rcases List.mem_append.mp ha with h1 | h2
            · exact h a h1
            · rcases List.mem_cons.mp h2 with h3 | h4
              · rw [h3]
                exact ⟨t, hdb, rfl⟩
              · rcases List.mem_cons.mp h4 with h5 | h6
                · rw [h5]
                  exact ⟨rfl, hf'.symm⟩
                · rcases List.mem_cons.mp h6 with h7 | h8
                  · rw [h7]
                    rfl
                  · cases h8

theorem loopMax_pos (task : Task) : 0 < loopMax task := by
  unfold loopMax natOr
  split <;> omega

/-! ### Concrete tasks and environments used to instantiate the theorems -/

/-- A concrete in-progress task with the iteration loop enabled. -/
def task0 : Task :=
  { id := "t1", title := "demo task", description := none,
    status := TaskStatus.in_progress, claude_output := none,
    ralph_enabled := 1, ralph_max_iterations := 2,
    ralph_completion_promise := "DONE", ralph_current_iteration := 0,
    ralph_status := none }

/-- Environment in which the task snapshot has vanished from storage. -/
def envErr : LoopEnv :=
  { cancelledAt := fun _ => false, dbTask := fun _ => none,
    iterResult := fun _ => ("", some 0) }

/-- Environment whose cancellation flag is already set. -/
def envCancel : LoopEnv :=
  { cancelledAt := fun _ => true, dbTask := fun _ => none,
    iterResult := fun _ => ("", some 0) }

/-- Environment in which every iteration exits cleanly without a promise. -/
def envNoPromise : LoopEnv :=
  { cancelledAt := fun _ => false, dbTask := fun _ => some task0,
    iterResult := fun _ => ("working on it", some 0) }

/-- Environment in which every iteration exits non-zero without a promise. -/
def envFail : LoopEnv :=
  { cancelledAt := fun _ => false, dbTask := fun _ => some task0,
    iterResult := fun _ => ("crash", some 1) }

/-- `task0` after a mid-loop edit of its completion token. -/
def taskEdited : Task :=
  { task0 with ralph_completion_promise := "CHANGED" }

/-- Environment in which the loop's fresh snapshot carries an edited token
while the agent still emits the original one. -/
def envEdited : LoopEnv :=
  { cancelledAt := fun _ => false, dbTask := fun _ => some taskEdited,
    iterResult := fun _ => ("<promise>DONE</promise>", some 0) }

/-! ### Claim theorems about the loop -/

/-- C3: for every Ralph loop run, the final iteration count persisted in the
final write-back equals the count carried by the final loop-complete event,
it never exceeds the effective maximum fixed at loop entry, and it equals
that maximum whenever the terminal reason is `max_reached`. -/
theorem runRalphLoop_iteration_bound :
    ∀ (task : Task) (env : LoopEnv) (reg : List (String × Bool)),
      (runRalphLoop task env reg).finalWrite.ralph_current_iteration ≤ loopMax task ∧
      (runRalphLoop task env reg).loopCompleteEvent.1 =
        (runRalphLoop task env reg).finalWrite.ralph_current_iteration ∧
      ((runRalphLoop task env reg).reason = FinalReason.max_reached →
        (runRalphLoop task env reg).finalWrite.ralph_current_iteration =
          loopMax task) := by
  intro task env reg
  have h := ralphLoopGo_iteration_bound env (loopToken task) (loopMax task)
    (loopMax task) 0 "" []
  have h1 : (loopExit task env).iteration ≤ loopMax task := by
    have := h.1
    unfold loopExit
    omega
  have h2 : (loopExit task env).reason = FinalReason.max_reached →
      (loopExit task env).iteration = loopMax task := by
    intro hr
    unfold loopExit at hr ⊢
    have := h.2 hr
    omega
  exact ⟨h1, rfl, fun hr => h2 hr⟩

/-- Witness for C3: a run that exhausts its maximum of 2 iterations ends
with a final count equal to that maximum. -/
theorem runRalphLoop_iteration_bound_witness :
    (runRalphLoop task0 envNoPromise []).finalWrite.ralph_current_iteration =
      loopMax task0 :=
  (runRalphLoop_iteration_bound task0 envNoPromise []).2.2 (by decide)

/-- C9: cancellation is polled at the top of every loop pass — whenever the
flag is observed set at the poll before a pass, the loop exits with terminal
reason `cancelled` immediately, leaving the iteration counter, transcript
and action trace untouched (so no further process is spawned); in
particular, a cancellation already set before any iteration starts yields
terminal reason `cancelled` with final iteration count 0 and an empty
action trace. -/
theorem ralphLoop_cancellation_polled :
    (∀ (env : LoopEnv) (token : String) (maxIterations fuel cur : Nat)
        (acc : String) (trace : List IterAction),
        env.cancelledAt (cur + 1) = true →
        ralphLoopGo env token maxIterations (fuel + 1) cur acc trace =
          ⟨FinalReason.cancelled, cur, acc, trace⟩) ∧
    (∀ (task : Task) (env : LoopEnv) (reg : List (String × Bool)),
        env.cancelledAt 1 = true →
        (runRalphLoop task env reg).reason = FinalReason.cancelled ∧
        (runRalphLoop task env reg).finalWrite.ralph_current_iteration = 0 ∧
        (runRalphLoop task env reg).trace = []) := by
  constructor
  · intro env token maxIterations fuel cur acc trace hc
    exact ralphLoopGo_cancel env token maxIterations fuel cur acc trace hc
  · intro task env reg hc
    obtain ⟨f, hf⟩ : ∃ f, loopMax task = f + 1 :=
      ⟨loopMax task - 1, by have := loopMax_pos task; omega⟩
    have hexit : loopExit task env = ⟨FinalReason.cancelled, 0, "", []⟩ := by
      unfold loopExit
      rw [hf]
      exact ralphLoopGo_cancel env (loopToken task) (f + 1) f 0 "" [] hc
    refine ⟨?_, ?_, ?_⟩
    · show (loopExit task env).reason = FinalReason.cancelled
      rw [hexit]
    · show (loopExit task env).iteration = 0
      rw [hexit]
    · show (loopExit task env).trace = []
      rw [hexit]

/-- Witness for C9: with the flag set before the first pass, the run is
cancelled at iteration count 0 with no process spawned. -/
theorem ralphLoop_cancellation_polled_witness :
    (runRalphLoop task0 envCancel []).reason = FinalReason.cancelled ∧
    (runRalphLoop task0 envCancel []).finalWrite.ralph_current_iteration = 0 ∧
    (runRalphLoop task0 envCancel []).trace = [] :=
  ralphLoop_cancellation_polled.2 task0 envCancel [] rfl

/-- C8: if pass `cur + 1` (with `cur + 1 < maxIterations`) runs — not
cancelled at its poll, fresh snapshot available — and ends with a non-zero
exit code, no promise detected in its output, and no cancellation is
observed at the next poll and the next snapshot read succeeds, then the
loop emits the diagnostic progress event for pass `cur + 1` and still
spawns pass `cur + 2`: a non-zero exit code alone never stops the loop. -/
theorem ralphLoop_nonzero_exit_continues :
    ∀ (env : LoopEnv) (token : String) (maxIterations fuel cur : Nat)
      (acc : String) (trace : List IterAction) (t t' : Task),
      cur + fuel = maxIterations →
      cur + 1 < maxIterations →
      env.cancelledAt (cur + 1) = false →
      env.dbTask (cur + 1) = some t →
      checkCompletionPromise (env.iterResult (cur + 1)).1 token = false →
      (env.iterResult (cur + 1)).2 ≠ some 0 →
      env.cancelledAt (cur + 2) = false →
      env.dbTask (cur + 2) = some t' →
      IterAction.diag (cur + 1) (env.iterResult (cur + 1)).2 ∈
        (ralphLoopGo env token maxIterations fuel cur acc trace).trace ∧
      IterAction.spawn (cur + 2) (buildIterationPrompt t' (cur + 2) maxIterations) ∈
        (ralphLoopGo env token maxIterations fuel cur acc trace).trace := by
  intro env token maxIterations fuel cur acc trace t t' hinv hlt hc1 hdb1 hf1 hcode1 hc2 hdb2
  obtain ⟨f, rfl⟩ : ∃ f, fuel = f + 2 := ⟨fuel - 2, by omega⟩
  rw [ralphLoopGo_step_diag env token maxIterations (f + 1) cur acc trace t hc1 hdb1
    hf1 hcode1]
  constructor
  · apply ralphLoopGo_trace_mem
    simp
  · by_cases hf2 : checkCompletionPromise (env.iterResult (cur + 2)).1 token = true
    · rw [ralphLoopGo_promise env token maxIterations f (cur + 1) _ _ t' hc2 hdb2 hf2]
      exact List.mem_append_right _ (List.mem_cons_self _ _)
    · have hf2' : checkCompletionPromise (env.iterResult (cur + 2)).1 token = false := by
        cases hx : checkCompletionPromise (env.iterResult (cur + 2)).1 token <;> simp_all
      by_cases hcode2 : (env.iterResult (cur + 2)).2 = some 0
      · rw [ralphLoopGo_step_ok env token maxIterations f (cur + 1) _ _ t' hc2 hdb2
          hf2' hcode2]
        apply ralphLoopGo_trace_mem
        exact List.mem_append_right _ (List.mem_cons_self _ _)
      · rw [ralphLoopGo_step_diag env token maxIterations f (cur + 1) _ _ t' hc2 hdb2
          hf2' hcode2]
        apply ralphLoopGo_trace_mem
        exact List.mem_append_right _ (List.mem_cons_self _ _)

/-- Witness for C8: iteration 1 of 2 exits with code 1 and no promise; the
diagnostic for iteration 1 is emitted and iteration 2 is still spawned. -/
theorem ralphLoop_nonzero_exit_continues_witness :
    IterAction.diag 1 (some 1) ∈ (ralphLoopGo envFail "DONE" 2 2 0 "" []).trace ∧
    IterAction.spawn 2 (buildIterationPrompt task0 2 2) ∈
      (ralphLoopGo envFail "DONE" 2 2 0 "" []).trace :=
  ralphLoop_nonzero_exit_continues envFail "DONE" 2 2 0 "" [] task0 task0
    rfl (by omega) rfl rfl (by decide) (by decide) rfl rfl

/-- C10: the completion token is fixed once at loop entry (defaulting to
`"TASK_COMPLETE"` when the task's token is empty) and the maximum iteration
count is fixed once at loop entry: every promise-detector evaluation in the
trace compares that entry token against that pass's output, while every
spawned prompt is built — with the entry-fixed maximum — from the freshly
re-read snapshot (so it embeds the snapshot's possibly edited completion
token); editing the token mid-loop therefore changes what the agent is
instructed to emit but never what the detector accepts. -/
theorem runRalphLoop_token_fixed_at_entry :
    (∀ (task : Task) (env : LoopEnv) (reg : List (String × Bool))
        (i : Nat) (tok : String) (found : Bool),
        IterAction.check i tok found ∈ (runRalphLoop task env reg).trace →
        tok = loopToken task ∧
          found = checkCompletionPromise (env.iterResult i).1 (loopToken task)) ∧
    (∀ (task : Task) (env : LoopEnv) (reg : List (String × Bool))
        (i : Nat) (prompt : String),
        IterAction.spawn i prompt ∈ (runRalphLoop task env reg).trace →
        ∃ t, env.dbTask i = some t ∧
          prompt = buildIterationPrompt t i (loopMax task)) ∧
    (∀ task : Task, task.ralph_completion_promise = "" →
        loopToken task = "TASK_COMPLETE") := by
  have hspec : ∀ (task : Task) (env : LoopEnv) (reg : List (String × Bool))
      (a : IterAction), a ∈ (runRalphLoop task env reg).trace →
      actionSpec env (loopToken task) (loopMax task) a := by
    intro task env reg a ha
    have ha' : a ∈ (loopExit task env).trace := ha
    exact ralphLoopGo_actionSpec env (loopToken task) (loopMax task)
      (loopMax task) 0 "" []
      (fun a ha'' => absurd ha'' (List.not_mem_nil a)) a ha'
  refine ⟨?_, ?_, ?_⟩
  · intro task env reg i tok found hmem
    exact hspec task env reg _ hmem
  · intro task env reg i prompt hmem
    exact hspec task env reg _ hmem
  · intro task h
    unfold loopToken strOr
    rw [h]
    rfl

set_option maxRecDepth 8192 in
/-- Witness for C10: the fresh snapshot carries the edited token
`"CHANGED"`, yet the recorded detector evaluation of iteration 1 compares
against the entry token — `loopToken task0`, i.e. `"DONE"`. -/
theorem runRalphLoop_token_fixed_at_entry_witness :
    ("DONE" : String) = loopToken task0 ∧
    ∃ t, envEdited.dbTask 1 = some t ∧
      buildIterationPrompt taskEdited 1 (loopMax task0) =
        buildIterationPrompt t 1 (loopMax task0) := by
  constructor
  · exact (runRalphLoop_token_fixed_at_entry.1 task0 envEdited [] 1 "DONE" true
      (by decide)).1
  · exact runRalphLoop_token_fixed_at_entry.2.1 task0 envEdited [] 1
      (buildIterationPrompt taskEdited 1 (loopMax task0)) (by decide)

theorem lookupEntry_delEntry (reg : List (String × Bool)) (k : String) :
    lookupEntry (delEntry reg k) k = none := by
  induction reg with
  | nil => rfl
  | cons e rest ih =>
    by_cases he : e.1 = k
    · simp only [delEntry, lookupEntry, List.filter] at ih ⊢
      have hne : (e.1 != k) = false := by simp [he]
      rw [hne]
      exact ih
    · simp only [delEntry, lookupEntry, List.filter] at ih ⊢
      have : (e.1 != k) = true := by simp [he]
      rw [this]
      simp only [List.find?]
      have : (e.1 == k) = false := by simp [he]
      rw [this]
      exact ih

/-- Counterexample to C4 as stated: the persisted `ralph_status` is not a
distinct value per terminal reason — a run that exits with terminal reason
`error` persists exactly the same `ralph_status` (`'cancelled'`) as a run
that exits with terminal reason `cancelled`. -/
theorem runRalphLoop_error_status_not_distinct :
    (runRalphLoop task0 envErr []).reason = FinalReason.error ∧
    (runRalphLoop task0 envCancel []).reason = FinalReason.cancelled ∧
    (runRalphLoop task0 envErr []).finalWrite.ralph_status =
      (runRalphLoop task0 envCancel []).finalWrite.ralph_status := by
  refine ⟨by decide, by decide, by decide⟩

/-- C4 (amended): on every Ralph loop exit, regardless of terminal reason,
the registry entry for the task is removed, the final write-back carries
the full transcript, the final iteration count (the same one carried by the
loop-complete event) and a `ralph_status` mapped from the terminal reason —
`promise_fulfilled ↦ completed`, `max_reached ↦ max_reached`,
`cancelled ↦ cancelled`, `error ↦ cancelled` (so `error` and `cancelled`
share a persisted value) — and the externally visible workflow status is
set to `done` exactly when the terminal reason is `promise_fulfilled`;
every other terminal reason writes back the entry snapshot's status,
leaving the task still active. -/
theorem runRalphLoop_exit_writeback :
    ∀ (task : Task) (env : LoopEnv) (reg : List (String × Bool)),
      lookupEntry (runRalphLoop task env reg).registryAfter task.id = none ∧
      (runRalphLoop task env reg).finalWrite.claude_output =
        (runRalphLoop task env reg).transcript ∧
      (runRalphLoop task env reg).finalWrite.ralph_current_iteration =
        (runRalphLoop task env reg).loopCompleteEvent.1 ∧
      (runRalphLoop task env reg).finalWrite.ralph_status =
        ralphStatusOf (runRalphLoop task env reg).reason ∧
      ralphStatusOf FinalReason.promise_fulfilled = RalphStatus.completed ∧
      ralphStatusOf FinalReason.max_reached = RalphStatus.max_reached ∧
      ralphStatusOf FinalReason.cancelled = RalphStatus.cancelled ∧
      ralphStatusOf FinalReason.error = RalphStatus.cancelled ∧
      ((runRalphLoop task env reg).reason = FinalReason.promise_fulfilled →
        (runRalphLoop task env reg).finalWrite.status = TaskStatus.done) ∧
      ((runRalphLoop task env reg).reason ≠ FinalReason.promise_fulfilled →
        (runRalphLoop task env reg).finalWrite.status = task.status) := by
  intro task env reg
  refine ⟨?_, rfl, rfl, rfl, rfl, rfl, rfl, rfl, ?_, ?_⟩
  · show lookupEntry (delEntry (setEntry reg task.id false) task.id) task.id = none
    exact lookupEntry_delEntry _ _
  · intro hr
    show finalTaskStatus (loopExit task env).reason task.status = TaskStatus.done
    have hr' : (loopExit task env).reason = FinalReason.promise_fulfilled := hr
    rw [hr']
    rfl
  · intro hr
    show finalTaskStatus (loopExit task env).reason task.status = task.status
    have hr' : (loopExit task env).reason ≠ FinalReason.promise_fulfilled := hr
    cases hx : (loopExit task env).reason
    · exact absurd hx hr'
    · rfl
    · rfl
    · rfl

/-- Witness for C4 (amended): a cancelled run writes back the entry
snapshot's workflow status, leaving the task still active. -/
theorem runRalphLoop_exit_writeback_witness :
    (runRalphLoop task0 envCancel []).finalWrite.status = task0.status :=
  (runRalphLoop_exit_writeback task0 envCancel []).2.2.2.2.2.2.2.2.2 (by decide)

/-! ## Live processes and the run registry (claude.ts lines 7-8, 38-43,
140-152, 165-170, 216, 351-360)

Small-step model of the module-level maps.  `activeProcesses` maps a task id
to its registered child-process handle (modelled as a pid), `liveProcs` is
the set of live OS processes tagged with the task id they were spawned for,
and `activeRalphLoops` maps a task id to its cancellation flag.  The
operations are the exact start/cancel sequences of the source:
`startClaudeTask` first calls `cancelClaudeTask` (kill + remove) and then
spawns and registers; `runRalphLoop` only does
`activeRalphLoops.set(task.id, ⟨cancelled := false⟩)` at entry — it kills
nothing; `runSingleIteration` spawns and overwrites the `activeProcesses`
entry without killing the previous process. -/

structure ProcState where
  activeProcesses : List (String × Nat)
  liveProcs : List (Nat × String)
  activeRalphLoops : List (String × Bool)
deriving DecidableEq, Repr

/-- `activeProcesses.get(taskId)`. -/
def lookupProc (m : List (String × Nat)) (k : String) : Option Nat :=
  (m.find? (fun e => e.1 == k)).map (·.2)

/-- `activeProcesses.delete(taskId)`. -/
def removeProcEntry (m : List (String × Nat)) (k : String) : List (String × Nat) :=
  m.filter (fun e => e.1 != k)

/-- `activeProcesses.set(taskId, proc)`. -/
def setProcEntry (m : List (String × Nat)) (k : String) (v : Nat) :
    List (String × Nat) :=
  (k, v) :: removeProcEntry m k

/-- `cancelClaudeTask` (claude.ts lines 140-148): kill the registered
process, if any, and drop its registration. -/
def cancelClaudeTask (s : ProcState) (tid : String) : ProcState :=
  match lookupProc s.activeProcesses tid with
  | some pid =>
      { s with liveProcs := s.liveProcs.filter (fun e => e.1 != pid),
               activeProcesses := removeProcEntry s.activeProcesses tid }
  | none => s

/-- Spawning a child process for a task and registering its handle. -/
def spawnClaude (s : ProcState) (tid : String) (pid : Nat) : ProcState :=
  { s with liveProcs := (pid, tid) :: s.liveProcs,
           activeProcesses := setProcEntry s.activeProcesses tid pid }

/-- The start sequence of `startClaudeTask` (lines 43 then 62-67):
cancel-then-spawn. -/
def startClaudeTaskStart (s : ProcState) (tid : String) (pid : Nat) : ProcState :=
  spawnClaude (cancelClaudeTask s tid) tid pid

/-- The entry of `runRalphLoop` (line 216): installs a fresh not-cancelled
loop entry and touches nothing else. -/
def runRalphLoopStart (s : ProcState) (tid : String) : ProcState :=
  { s with activeRalphLoops := setEntry s.activeRalphLoops tid false }

/-- The spawn inside `runSingleIteration` (lines 165-170): spawn and
overwrite the registration, no kill. -/
def runSingleIterationSpawn (s : ProcState) (tid : String) (pid : Nat) : ProcState :=
  spawnClaude s tid pid

/-- The live processes spawned for a task id. -/
def liveFor (s : ProcState) (tid : String) : List Nat :=
  (s.liveProcs.filter (fun e => e.2 == tid)).map (·.1)

/-- Good-state invariant: every live process of the task is the registered
one (at most one live process, and it is findable through the registry). -/
def registeredOnly (s : ProcState) (tid : String) : Prop :=
  ∀ pid ∈ liveFor s tid, lookupProc s.activeProcesses tid = some pid

theorem cancelClaudeTask_none (s : ProcState) (tid : String)
    (h : lookupProc s.activeProcesses tid = none) :
    cancelClaudeTask s tid = s := by
  unfold cancelClaudeTask
  rw [h]

theorem cancelClaudeTask_some (s : ProcState) (tid : String) (pid : Nat)
    (h : lookupProc s.activeProcesses tid = some pid) :
    cancelClaudeTask s tid =
      { s with liveProcs := s.liveProcs.filter (fun e => e.1 != pid),
               activeProcesses := removeProcEntry s.activeProcesses tid } := by
  unfold cancelClaudeTask
  rw [h]

theorem mem_liveFor (s : ProcState) (tid : String) (pid : Nat) :
    pid ∈ liveFor s tid ↔ (pid, tid) ∈ s.liveProcs := by
  unfold liveFor
  constructor
  · intro h
    rcases List.mem_map.mp h with ⟨⟨p, t⟩, he, rfl⟩
    rcases List.mem_filter.mp he with ⟨hmem, ht⟩
    have ht' : t = tid := by simpa using ht
    subst ht'
    exact hmem
  · intro h
    exact List.mem_map.mpr ⟨(pid, tid), List.mem_filter.mpr ⟨h, by simp⟩, rfl⟩

theorem liveFor_spawn (s : ProcState) (tid : String) (pid : Nat) :
    liveFor (spawnClaude s tid pid) tid = pid :: liveFor s tid := by
  unfold liveFor spawnClaude
  simp [List.filter_cons]

/-- Counterexample to C2 as stated: starting from no live run, a single-shot
run is started for `"t1"` (process 1); then a Ralph loop is started for the
same task id and spawns its first iteration (process 2).  The loop entry
terminates nothing, so the two processes spawned for `"t1"` are both still
live — two live processes for one task id coexist. -/
theorem runRalphLoop_start_two_live_processes :
    liveFor (runSingleIterationSpawn
        (runRalphLoopStart (startClaudeTaskStart ⟨[], [], []⟩ "t1" 1) "t1")
        "t1" 2) "t1" = [2, 1] := by
  decide

/-- C2 (amended): `runOnce` (`startClaudeTask`) is cancel-then-start — from
any state whose live processes for the task id are all registered, it
terminates the prior run's process before its own process starts, leaving
its new process as the only live one for the task id.  `runLoop`
(`runRalphLoop`), by contrast, terminates nothing at entry: it only
installs a fresh not-cancelled cancellation entry and leaves every live
process running (so starting a loop while a run is live can produce two
coexisting live processes, as the counterexample shows). -/
theorem startClaudeTask_cancel_then_start :
    (∀ (s : ProcState) (tid : String) (pid : Nat),
        registeredOnly s tid →
        liveFor (startClaudeTaskStart s tid pid) tid = [pid]) ∧
    (∀ (s : ProcState) (tid : String),
        (runRalphLoopStart s tid).liveProcs = s.liveProcs ∧
        lookupEntry (runRalphLoopStart s tid).activeRalphLoops tid = some false) := by
  constructor
  · intro s tid pid hro
    have hempty : liveFor (cancelClaudeTask s tid) tid = [] := by
      cases hl : lookupProc s.activeProcesses tid with
      | none =>
        rw [cancelClaudeTask_none s tid hl]
        rw [List.eq_nil_iff_forall_not_mem]
        intro x hx
        have hlx := hro x hx
        rw [hl] at hlx
        cases hlx
      | some p =>
        rw [cancelClaudeTask_some s tid p hl]
        rw [List.eq_nil_iff_forall_not_mem]
        intro x hx
        have hx' := (mem_liveFor _ tid x).mp hx
        have hmf := List.mem_filter.mp hx'
        have hxs : x ∈ liveFor s tid := (mem_liveFor s tid x).mpr hmf.1
        have hlx := hro x hxs
        rw [hl] at hlx
        have hxp : p = x := by injection hlx
        have hne : (x != p) = true := by simpa using hmf.2
        rw [← hxp] at hne
        simp at hne
    unfold startClaudeTaskStart
    rw [liveFor_spawn, hempty]
  · intro s tid
    refine ⟨rfl, ?_⟩
    unfold runRalphLoopStart lookupEntry setEntry
    simp [List.find?]

/-- Witness for C2 (amended): from a good state with process 1 live and
registered for `"t1"`, a new single-shot start with process 2 leaves only
process 2 live. -/
theorem startClaudeTask_cancel_then_start_witness :
    liveFor (startClaudeTaskStart ⟨[("t1", 1)], [(1, "t1")], []⟩ "t1" 2) "t1" = [2] :=
  startClaudeTask_cancel_then_start.1 ⟨[("t1", 1)], [(1, "t1")], []⟩ "t1" 2
    (fun pid hp => by
      have h1 : pid = 1 := by
        have hm : pid ∈ [1] := hp
        simpa using hm
      rw [h1]
      rfl)

/-! ## Codebase analysis (`analyzeCodebase`)

The analysis runner spawns one process with a two-minute timeout and
resolves — never rejects — from exactly one of its terminal paths: the
process `'error'` event, or the `'close'` event with the `timedOut` flag,
the exit code, and the parse result of the captured output.  JSON parsing
itself (`parseAnalysisOutput`) is outside the shallow embedding; its
outcome — `null` or a list of result records — is supplied directly as
`parsed`. -/

/-- A requested analysis subject. -/
structure TaskInput where
  title : String
  description : Option String
deriving DecidableEq, Repr

/-- Analysis verdicts; `partly` embeds the source's `'partial'` value. -/
inductive AnalysisStatus
  | complete
  | partly
  | not_started
  | unknown
deriving DecidableEq, Repr

/-- Confidence levels. -/
inductive Confidence
  | high
  | medium
  | low
deriving DecidableEq, Repr

/-- One analysis result record. -/
structure AnalysisResult where
  taskTitle : String
  status : AnalysisStatus
  confidence : Confidence
  evidence : String
deriving DecidableEq, Repr

/-- The terminal outcome of the analysis process. -/
inductive AnalysisEnd
  | errored (message : String)
  | closed (timedOut : Bool) (code : Option Int)
      (parsed : Option (List AnalysisResult))
deriving Repr

/-- The all-unknown fallback list: one low-confidence unknown record per
requested subject, with the given evidence text. -/
def unknownResults (tasks : List TaskInput) (evidence : String) :
    List AnalysisResult :=
  tasks.map fun t => ⟨t.title, AnalysisStatus.unknown, Confidence.low, evidence⟩

/-- `resultsMap.get(task.title)` where
`resultsMap = new Map(results.map(r => [r.taskTitle, r]))`: a JavaScript
`Map` built from a list keeps the last entry per key. -/
def lastWithTitle (results : List AnalysisResult) (title : String) :
    Option AnalysisResult :=
  (results.filter (fun r => r.taskTitle == title)).getLast?

/-- Reconciliation of one requested subject against the parsed records:
the record with its title if present, else the `"Not analyzed"` default. -/
def reconcileOne (results : List AnalysisResult) (t : TaskInput) : AnalysisResult :=
  match lastWithTitle results t.title with
  | some r => r
  | none => ⟨t.title, AnalysisStatus.unknown, Confidence.low, "Not analyzed"⟩

/-- `analyzeCodebase` (the `'close'`/`'error'` handlers): timeout first,
then non-zero (or unobservable) exit, then parse failure, then
reconciliation of the parsed records against the requested subjects. -/
def analyzeCodebase (tasks : List TaskInput) (outcome : AnalysisEnd) :
    List AnalysisResult :=
  match outcome with
  | .errored msg => unknownResults tasks ("Process error: " ++ msg)
  | .closed true _ _ => unknownResults tasks "Analysis timed out"
  | .closed false code parsed =>
      if code = some 0 then
        match parsed with
        | none => unknownResults tasks "Could not parse analysis results"
        | some rs => tasks.map (reconcileOne rs)
      else unknownResults tasks "Analysis failed"

/-- Whether the outcome takes one of the all-unknown fallback paths. -/
def fallbackPath : AnalysisEnd → Bool
  | .errored _ => true
  | .closed true _ _ => true
  | .closed false code parsed =>
      if code = some 0 then parsed.isNone else true

theorem mem_unknownResults (tasks : List TaskInput) (ev : String)
    (r : AnalysisResult) (hr : r ∈ unknownResults tasks ev) :
    r.status = AnalysisStatus.unknown ∧ r.confidence = Confidence.low ∧
      r.evidence = ev := by
  rcases List.mem_map.mp hr with ⟨t, _, rfl⟩
  exact ⟨rfl, rfl, rfl⟩

theorem lastWithTitle_title (results : List AnalysisResult) (title : String)
    (r : AnalysisResult) (h : lastWithTitle results title = some r) :
    r.taskTitle = title := by
  unfold lastWithTitle at h
  have hopt : r ∈ (results.filter (fun r => r.taskTitle == title)).getLast? := h
  obtain ⟨hne', heq⟩ := List.mem_getLast?_eq_getLast hopt
  have hmem : r ∈ results.filter (fun r => r.taskTitle == title) := by
    rw [heq]
    exact List.getLast_mem hne'
  have := (List.mem_filter.mp hmem).2
  simpa using this

theorem reconcileOne_title (results : List AnalysisResult) (t : TaskInput) :
    (reconcileOne results t).taskTitle = t.title := by
  unfold reconcileOne
  cases hl : lastWithTitle results t.title with
  | none => rfl
  | some r => exact lastWithTitle_title results t.title r hl

theorem append_ne_empty_left (a b : String) (h : a ≠ "") : a ++ b ≠ "" := by
  intro hab
  apply h
  have hd : (a ++ b).data = ([] : List Char) := by rw [hab]
  rw [String.data_append] at hd
  have ha : a.data = [] := (List.append_eq_nil.mp hd).1
  cases a
  simp_all

theorem analyzeCodebase_is_map (tasks : List TaskInput) (outcome : AnalysisEnd) :
    ∃ f : TaskInput → AnalysisResult,
      analyzeCodebase tasks outcome = tasks.map f ∧
      ∀ t, (f t).taskTitle = t.title := by
  cases outcome with
  | errored msg =>
    exact ⟨fun t => ⟨t.title, AnalysisStatus.unknown, Confidence.low,
      "Process error: " ++ msg⟩, rfl, fun t => rfl⟩
  | closed timedOut code parsed =>
    cases timedOut with
    | true =>
      exact ⟨fun t => ⟨t.title, AnalysisStatus.unknown, Confidence.low,
        "Analysis timed out"⟩, rfl, fun t => rfl⟩
    | false =>
      by_cases hcode : code = some 0
      · cases parsed with
        | none =>
          refine ⟨fun t => ⟨t.title, AnalysisStatus.unknown, Confidence.low,
            "Could not parse analysis results"⟩, ?_, fun t => rfl⟩
          simp [analyzeCodebase, hcode, unknownResults]
        | some rs =>
          refine ⟨reconcileOne rs, ?_, reconcileOne_title rs⟩
          simp [analyzeCodebase, hcode]
      · refine ⟨fun t => ⟨t.title, AnalysisStatus.unknown, Confidence.low,
          "Analysis failed"⟩, ?_, fun t => rfl⟩
        simp [analyzeCodebase, hcode, unknownResults]

theorem list_get_map {α β : Type} (f : α → β) (l : List α) (i : Nat)
    (h1 : i < (l.map f).length) (h2 : i < l.length) :
    (l.map f).get ⟨i, h1⟩ = f (l.get ⟨i, h2⟩) := by
  simp [List.get_eq_getElem, List.getElem_map]

theorem list_get_congr {α : Type} (l l' : List α) (h : l = l') (i : Nat)
    (h1 : i < l.length) (h2 : i < l'.length) :
    l.get ⟨i, h1⟩ = l'.get ⟨i, h2⟩ := by
  subst h
  rfl

/-- C5: for every analysis request, `analyzeCodebase` resolves (it is a
total function of the terminal outcome) with exactly one result record per
requested subject, in request order, each carrying that subject's title; on
every fallback path — process error, timeout, non-zero or unobservable
exit, unparsable output — every record is `unknown`/`low` with a non-empty
human-readable evidence string; on the timeout path the evidence mentions
the timeout; and on a successfully parsed response every requested subject
missing from the parsed records is filled in with the
`unknown`/`low`/`"Not analyzed"` record, so the result list is never
partial. -/
theorem analyzeCodebase_complete_results :
    ∀ (tasks : List TaskInput) (outcome : AnalysisEnd),
      tasks ≠ [] →
      (analyzeCodebase tasks outcome).length = tasks.length ∧
      (∀ (i : Nat) (h1 : i < (analyzeCodebase tasks outcome).length)
          (h2 : i < tasks.length),
          ((analyzeCodebase tasks outcome).get ⟨i, h1⟩).taskTitle =
            (tasks.get ⟨i, h2⟩).title) ∧
      (fallbackPath outcome = true →
        ∀ r ∈ analyzeCodebase tasks outcome,
          r.status = AnalysisStatus.unknown ∧ r.confidence = Confidence.low ∧
            r.evidence ≠ "") ∧
      (∀ (code : Option Int) (parsed : Option (List AnalysisResult)),
          outcome = AnalysisEnd.closed true code parsed →
          ∀ r ∈ analyzeCodebase tasks outcome,
            containsSub "timed out" r.evidence = true) ∧
      (∀ (code : Option Int) (rs : List AnalysisResult),
          outcome = AnalysisEnd.closed false code (some rs) → code = some 0 →
          ∀ (i : Nat) (h1 : i < (analyzeCodebase tasks outcome).length)
            (h2 : i < tasks.length),
            lastWithTitle rs (tasks.get ⟨i, h2⟩).title = none →
            (analyzeCodebase tasks outcome).get ⟨i, h1⟩ =
              ⟨(tasks.get ⟨i, h2⟩).title, AnalysisStatus.unknown, Confidence.low,
                "Not analyzed"⟩) := by
  intro tasks outcome hne
  obtain ⟨f, hmap, htitle⟩ := analyzeCodebase_is_map tasks outcome
  refine ⟨?_, ?_, ?_, ?_, ?_⟩
  · rw [hmap, List.length_map]
  · intro i h1 h2
    have h1' : i < (tasks.map f).length := by rw [← hmap]; exact h1
    rw [list_get_congr _ _ hmap i h1 h1', list_get_map f tasks i h1' h2]
    exact htitle _
  · intro hfb r hr
    cases outcome with
    | errored msg =>
      have hu := mem_unknownResults tasks ("Process error: " ++ msg) r hr
      refine ⟨hu.1, hu.2.1, ?_⟩
      rw [hu.2.2]
      exact append_ne_empty_left "Process error: " msg (by decide)
    | closed timedOut code parsed =>
      cases timedOut with
      | true =>
        have hu := mem_unknownResults tasks "Analysis timed out" r hr
        refine ⟨hu.1, hu.2.1, ?_⟩
        rw [hu.2.2]
        decide
      | false =>
        by_cases hcode : code = some 0
        · cases parsed with
          | none =>
            have hr' : r ∈ unknownResults tasks "Could not parse analysis results" := by
              have heq : analyzeCodebase tasks (AnalysisEnd.closed false code none) =
                  unknownResults tasks "Could not parse analysis results" := by
                simp [analyzeCodebase, hcode]
              rw [← heq]
              exact hr
            have hu := mem_unknownResults tasks "Could not parse analysis results" r hr'
            refine ⟨hu.1, hu.2.1, ?_⟩
            rw [hu.2.2]
            decide
          | some rs =>
            exfalso
            simp [fallbackPath, hcode] at hfb
        · have hr' : r ∈ unknownResults tasks "Analysis failed" := by
            have heq : analyzeCodebase tasks (AnalysisEnd.closed false code parsed) =
                unknownResults tasks "Analysis failed" := by
              simp [analyzeCodebase, hcode]
            rw [← heq]
            exact hr
          have hu := mem_unknownResults tasks "Analysis failed" r hr'
          refine ⟨hu.1, hu.2.1, ?_⟩
          rw [hu.2.2]
          decide
  · intro code parsed houtcome r hr
    subst houtcome
    have hu := mem_unknownResults tasks "Analysis timed out" r hr
    rw [hu.2.2]
    decide
  · intro code rs houtcome hcode i h1 h2 hmiss
    subst houtcome
    have heq : analyzeCodebase tasks (AnalysisEnd.closed false code (some rs)) =
        tasks.map (reconcileOne rs) := by
      simp [analyzeCodebase, hcode]
    have h1' : i < (tasks.map (reconcileOne rs)).length := by
      rw [← heq]
      exact h1
    rw [list_get_congr _ _ heq i h1 h1', list_get_map (reconcileOne rs) tasks i h1' h2]
    unfold reconcileOne
    rw [hmiss]

/-- Witness for C5: the spec's timeout scenario — three subjects requested,
process killed at the deadline — still yields exactly three result
records. -/
theorem analyzeCodebase_complete_results_witness :
    (analyzeCodebase [⟨"A", none⟩, ⟨"B", none⟩, ⟨"C", none⟩]
        (AnalysisEnd.closed true (some 143) none)).length = 3 :=
  (analyzeCodebase_complete_results [⟨"A", none⟩, ⟨"B", none⟩, ⟨"C", none⟩]
    (AnalysisEnd.closed true (some 143) none) (by decide)).1

end StickStack
